import Mathlib

/-!
Verification development for the LBP-TOP feature-extraction script
`antispoofing/lbptop/script/lbptop_calculate_parameters.py`.

The script's `main` orchestrates, per video: grayscale frames are swept with a
sliding window; for each analysable frame index and each configured temporal
radius a local volume is sliced, normalized externally, and handed to the
multiresolution histogram builder `spoof.lbptophist`; per-radius XT/YT
histograms are concatenated column-wise; rows are written into preallocated
matrices; finally `maxRadius` rows of NaN are prepended and appended and the
requested plane combinations are persisted.

The orchestrator (`main`) is embedded here directly from the source.  The
helpers `spoof.getNormFacesFromRange` and `spoof.lbptophist` live in the
repository's helper module, which is not among the provided source files, so
they are modelled from the specification (sections 4.1-4.3); their doc
comments say so explicitly.  Machine integers do not overflow in any relevant
path, so pixels and histogram counts are plain naturals; the NaN sentinel of
the output matrices is modelled by `Option` cells (`none` = NaN).  A Python
runtime error (negative numpy allocation, broadcast mismatch on row
assignment, out-of-range positive index) is modelled by `Option.none` at the
level of the whole per-video computation.
-/

namespace LbpTop

/-- A grayscale image: a list of rows of pixel intensities. -/
abbrev Frame := List (List ℕ)

/-- The three supported LBP variants (`lbptype = ['regular','riu2','uniform']`). -/
inductive LBPType
  | regular
  | riu2
  | uniform
  deriving DecidableEq

/-- The four extended-LBP comparison modes
(`elbptype = ['regular','transitional','direction_coded','modified']`). -/
inductive ELBPType
  | regular
  | transitional
  | direction_coded
  | modified
  deriving DecidableEq

/-- Source line 131:
`lbphistlength = {'regular': 256, 'riu2': 10, 'uniform': 59}`. -/
def lbphistlength : LBPType → ℕ
  | .regular => 256
  | .riu2 => 10
  | .uniform => 59

/-- The per-plane / per-run configuration read from the command line in
`main` (neighbour counts, radii, circularity flags, LBP variants and
extended-LBP modes for the three planes, and the set `rT` of temporal
radii). -/
structure Config where
  nXY : ℕ
  nXT : ℕ
  nYT : ℕ
  rX : ℕ
  rY : ℕ
  rT : List ℕ
  cXY : Bool
  cXT : Bool
  cYT : Bool
  lbptypeXY : LBPType
  lbptypeXT : LBPType
  lbptypeYT : LBPType
  elbptypeXY : ELBPType
  elbptypeXT : ELBPType
  elbptypeYT : ELBPType

/-- Source line 170: `maxRadius = max(rT)` (the spatial radii are NOT taken
into account; the commented-out line 169 would have used `max(rX,rY,max(rT))`).
Python's `max` on the nonempty argparse list is modelled as a fold from 0. -/
def maxRadius (rT : List ℕ) : ℕ := rT.foldl max 0

/-- Pixel access on a 2D plane, out-of-range reads defaulting to 0 (only
in-range accesses occur for valid centers). -/
def pget (p : Frame) (y x : ℕ) : ℕ := (p.getD y []).getD x 0

/-- Modelled from the spec (4.1 LBP Operator): the eight sampling offsets of a
square neighbourhood with vertical radius `ry` and horizontal radius `rx`.
The spec leaves the precise sampling geometry (circular interpolation) to the
external `bob` library; the model fixes the 8-point square neighbourhood. -/
def neighborOffsets (ry rx : ℕ) : List (ℤ × ℤ) :=
  [(-(ry : ℤ), -(rx : ℤ)), (-(ry : ℤ), 0), (-(ry : ℤ), (rx : ℤ)),
   (0, (rx : ℤ)), ((ry : ℤ), (rx : ℤ)), ((ry : ℤ), 0),
   ((ry : ℤ), -(rx : ℤ)), (0, -(rx : ℤ))]

/-- Modelled from the spec (4.1): the LBP code of the pixel at `(y, x)` of
plane `p`, with radii `(ry, rx)` and extended-LBP comparison mode `e`
(regular: neighbour vs centre; transitional: neighbour vs next neighbour;
direction-coded: neighbour vs opposite neighbour; modified: neighbour vs the
neighbourhood mean). -/
def lbpCode (p : Frame) (y x ry rx : ℕ) (e : ELBPType) : ℕ :=
  let c := pget p y x
  let nb := (neighborOffsets ry rx).map
    (fun d => pget p ((y : ℤ) + d.1).toNat ((x : ℤ) + d.2).toNat)
  let bit : ℕ → Bool := fun k =>
    match e with
    | .regular => decide (c ≤ nb.getD k 0)
    | .transitional => decide (nb.getD ((k + 1) % 8) 0 ≤ nb.getD k 0)
    | .direction_coded => decide (nb.getD ((k + 4) % 8) 0 ≤ nb.getD k 0)
    | .modified => decide ((nb.foldl (· + ·) 0) / 8 ≤ nb.getD k 0)
  (List.range 8).foldl (fun acc k => acc + (if bit k then 1 else 0) * 2 ^ k) 0

/-- Modelled from the spec (4.1 edge policy): the LBP codes of all valid
centers of a plane; pixels within the radius of the plane border are skipped
(the spec marks the source's edge handling as explicitly ambiguous and asks
the implementer to pick one policy; this model picks skipping). -/
def lbpCodes (p : Frame) (ry rx : ℕ) (e : ELBPType) : List ℕ :=
  let h := p.length
  let w := (p.getD 0 []).length
  ((List.range h).filter (fun y => decide (ry ≤ y ∧ y + ry < h))).flatMap
    (fun y =>
      ((List.range w).filter (fun x => decide (rx ≤ x ∧ x + rx < w))).map
        (fun x => lbpCode p y x ry rx e))

/-- Number of circular 0/1 transitions of an 8-bit code. -/
def transitions (c : ℕ) : ℕ :=
  ((List.range 8).filter (fun k => c.testBit k ≠ c.testBit ((k + 1) % 8))).length

/-- An 8-bit code is uniform when it has at most two circular transitions. -/
def isUniform (c : ℕ) : Bool := transitions c ≤ 2

/-- The uniform 8-bit codes in increasing order. -/
def uniformCodes : List ℕ := (List.range 256).filter (fun c => isUniform c)

/-- Number of set bits among the low eight bits. -/
def popcount8 (c : ℕ) : ℕ := ((List.range 8).filter (fun k => c.testBit k)).length

/-- Modelled from the spec (4.1): the histogram bin of an LBP code under a
variant: `regular` keeps the raw 8-bit code (256 bins), `riu2` maps uniform
codes to their bit count and everything else to bin 9 (10 bins), `uniform`
gives each uniform code its own bin and everything else the last bin
(59 bins). -/
def lbpBucket (t : LBPType) (c : ℕ) : ℕ :=
  match t with
  | .regular => c % 256
  | .riu2 => if isUniform c then popcount8 c else 9
  | .uniform => if isUniform c then uniformCodes.indexOf c else 58

/-- Increment the `i`-th counter of a histogram (`List.set` is a no-op out of
range, so the length is always preserved). -/
def incAt (l : List ℕ) (i : ℕ) : List ℕ := l.set i (l.getD i 0 + 1)

/-- Modelled from the spec (4.1 `buildHistogram`): aggregate LBP codes over a
plane into a fixed-length count vector whose length is exactly
`lbphistlength t`. -/
def buildHistogram (t : LBPType) (codes : List ℕ) : List ℕ :=
  codes.foldl (fun h c => incAt h (lbpBucket t c)) (List.replicate (lbphistlength t) 0)

/-- Modelled from the spec (4.2 Plane Extractor): the XY plane of a volume is
the frame at the centre time index. -/
def extractXY (volume : List Frame) : Frame := volume.getD (volume.length / 2) []

/-- Modelled from the spec (4.2): the XT plane for a fixed spatial row is that
row swept across all frames of the volume (time x width). -/
def extractXT (volume : List Frame) (row : ℕ) : Frame :=
  volume.map (fun f => f.getD row [])

/-- Modelled from the spec (4.2): the YT plane for a fixed spatial column is
that column swept across all frames of the volume (time x height). -/
def extractYT (volume : List Frame) (col : ℕ) : Frame :=
  volume.map (fun f => f.map (fun rw => rw.getD col 0))

/-- Height of the frames of a volume. -/
def volHeight (volume : List Frame) : ℕ := (volume.getD 0 []).length

/-- Width of the frames of a volume. -/
def volWidth (volume : List Frame) : ℕ := ((volume.getD 0 []).getD 0 []).length

/-- Modelled from the spec (4.3 Multiresolution Volume Histogram Builder,
and docstrings of `spoof.lbptophist`, a helper not among the provided source
files): for one normalized volume and one temporal radius `r`, return the
triple `(histXY, histXT, histYT)`.  The XY histogram is computed on the
centre frame with the spatial radii; the XT (resp. YT) histogram aggregates
the codes of every row-plane (resp. column-plane) of the volume, with radius
`r` along time and the corresponding spatial radius along space.  The
neighbour counts and circularity flags are plumbed through as in the source
call; the modelled 8-point square sampling does not consult them (spec 2:
histogram length is independent of them in any case). -/
def lbptophist (volume : List Frame) (nXY nXT nYT rX rY r : ℕ)
    (cXY cXT cYT : Bool) (tXY tXT tYT : LBPType)
    (eXY eXT eYT : ELBPType) : List ℕ × List ℕ × List ℕ :=
  let _ := (nXY, nXT, nYT, cXY, cXT, cYT)
  let histXY := buildHistogram tXY (lbpCodes (extractXY volume) rY rX eXY)
  let histXT := buildHistogram tXT
    ((List.range (volHeight volume)).flatMap
      (fun y => lbpCodes (extractXT volume y) r rX eXT))
  let histYT := buildHistogram tYT
    ((List.range (volWidth volume)).flatMap
      (fun x => lbpCodes (extractYT volume x) r rY eYT))
  (histXY, histXT, histYT)

/-- Python sequence indexing: a negative index selects from the end of the
list; an index out of range on either side is an `IndexError` (`none`). -/
def pythonGet {α : Type} (l : List α) (j : ℤ) : Option α :=
  if 0 ≤ j then l[j.toNat]?
  else if 0 ≤ (l.length : ℤ) + j then l[((l.length : ℤ) + j).toNat]?
  else none

/-- Map a fallible function over a list, failing as soon as one element
fails (the `Option` instance of `List.mapM`, written recursively). -/
def mapOpt {α β : Type} (f : α → Option β) : List α → Option (List β)
  | [] => some []
  | a :: l =>
    match f a with
    | none => none
    | some b => (mapOpt f l).map (fun bs => b :: bs)

/-- Source line 261: `rangeValues = range(i - maxLocalRadius, i + 1 + maxLocalRadius)`.
The loop variable `i` is a natural but the lower end may be negative, so the
values are integers. -/
def rangeValues (i mlr : ℕ) : List ℤ :=
  (List.range (2 * mlr + 1)).map (fun k : ℕ => (i : ℤ) - (mlr : ℤ) + (k : ℤ))

/-- Modelled from the spec (6 External Interfaces):
`spoof.getNormFacesFromRange(grayFrames, rangeValues, locations, normfacesize)`
(a helper not among the provided source files) selects `grayFrames[j]` for
each `j` in `rangeValues` under Python indexing semantics and maps the
external Face Normalizer over the selected frames.  `norm j f` bundles the
external location lookup and crop/resize for frame index `j`; a frame whose
normalization is unavailable fails the whole call (spec 4.4 leaves the
missing-location policy open; the model propagates the failure). -/
def getNormFacesFromRange (frames : List Frame) (rv : List ℤ)
    (norm : ℤ → Frame → Option Frame) : Option (List Frame) :=
  mapOpt (fun j => (pythonGet frames j).bind (norm j)) rv

/-- Source line 258: `maxLocalRadius = max(rX, rY, r)`, the radius used to
slice the local volume for temporal radius `r`. -/
def maxLocalRadius (cfg : Config) (r : ℕ) : ℕ := max (max cfg.rX cfg.rY) r

/-- Source lines 256-267: for one frame index `i` and one temporal radius `r`,
compute `maxLocalRadius = max(rX, rY, r)`, slice and normalize the local
volume, and run the histogram builder on it. -/
def perRadius (cfg : Config) (norm : ℤ → Frame → Option Frame)
    (frames : List Frame) (i r : ℕ) : Option (List ℕ × List ℕ × List ℕ) :=
  (getNormFacesFromRange frames (rangeValues i (maxLocalRadius cfg r)) norm).map
    (fun normalizedVolume =>
      lbptophist normalizedVolume cfg.nXY cfg.nXT cfg.nYT cfg.rX cfg.rY r
        cfg.cXY cfg.cXT cfg.cYT cfg.lbptypeXY cfg.lbptypeXT cfg.lbptypeYT
        cfg.elbptypeXY cfg.elbptypeXT cfg.elbptypeYT)

/-- Source lines 269-277, the tail of the per-frame radius loop: after the
first radius has filled all three accumulators, further radii concatenate
column-wise onto XT and YT only. -/
def concatRadii (cfg : Config) (norm : ℤ → Frame → Option Frame)
    (frames : List Frame) (i : ℕ) :
    List ℕ → (List ℕ × List ℕ × List ℕ) → Option (List ℕ × List ℕ × List ℕ)
  | [], acc => some acc
  | r :: rest, acc =>
    match perRadius cfg norm frames i r with
    | none => none
    | some h => concatRadii cfg norm frames i rest
        (acc.1, acc.2.1 ++ h.2.1, acc.2.2 ++ h.2.2)

/-- Source lines 251-277: the whole per-frame radius loop.  The accumulators
start as `None`; the first radius sets all three, later radii extend XT/YT. -/
def perFrameHists (cfg : Config) (norm : ℤ → Frame → Option Frame)
    (frames : List Frame) (i : ℕ) : Option (List ℕ × List ℕ × List ℕ) :=
  match cfg.rT with
  | [] => none
  | r0 :: rest =>
    match perRadius cfg norm frames i r0 with
    | none => none
    | some h0 => concatRadii cfg norm frames i rest h0

/-- Source lines 279-282 guard: a numpy row assignment
`histVolume[i - maxRadius, :] = hist` succeeds only when the assigned row
broadcasts to the allocated row width. -/
def perFrameChecked (cfg : Config) (norm : ℤ → Frame → Option Frame)
    (frames : List Frame) (wXY wXT wYT i : ℕ) :
    Option (List ℕ × List ℕ × List ℕ) :=
  match perFrameHists cfg norm frames i with
  | none => none
  | some h =>
    if h.1.length = wXY ∧ h.2.1.length = wXT ∧ h.2.2.length = wYT
    then some h else none

/-- Source lines 250-282: the sliding-window loop
`for i in range(maxRadius, nFrames - maxRadius)`, writing row `i - maxRadius`
of each of the three preallocated matrices. -/
def mainLoop (cfg : Config) (norm : ℤ → Frame → Option Frame)
    (frames : List Frame) (wXY wXT wYT maxR : ℕ) :
    List ℕ → List (List ℕ) × List (List ℕ) × List (List ℕ) →
    Option (List (List ℕ) × List (List ℕ) × List (List ℕ))
  | [], ms => some ms
  | i :: rest, ms =>
    match perFrameChecked cfg norm frames wXY wXT wYT i with
    | none => none
    | some h => mainLoop cfg norm frames wXY wXT wYT maxR rest
        (ms.1.set (i - maxR) h.1, ms.2.1.set (i - maxR) h.2.1,
         ms.2.2.set (i - maxR) h.2.2)

/-- A persisted matrix: rows of cells, a cell being a count or the NaN
sentinel (`none`). -/
abbrev Mat := List (List (Option ℕ))

/-- Source lines 287-300: build `maxrT` rows of NaN of the matrix's allocated
width and concatenate them before and after the computed body. -/
def padNaN (maxrT w : ℕ) (body : List (List ℕ)) : Mat :=
  let nanRows : Mat := List.replicate maxrT (List.replicate w none)
  nanRows ++ body.map (fun row => row.map some) ++ nanRows

/-- Source lines 229-300, the per-video computation of `main`: allocate the
three `(nFrames - 2*maxRadius) x lbphistlength[variant]` zero matrices
(negative allocation is a numpy `ValueError`, hence `none`), run the
sliding-window loop, then pad both ends with `max(rT)` NaN rows. -/
def processVideo (cfg : Config) (norm : ℤ → Frame → Option Frame)
    (frames : List Frame) : Option (Mat × Mat × Mat) :=
  let nFrames := frames.length
  let maxR := maxRadius cfg.rT
  if nFrames < 2 * maxR then none
  else
    let nHist := nFrames - 2 * maxR
    let wXY := lbphistlength cfg.lbptypeXY
    let wXT := lbphistlength cfg.lbptypeXT
    let wYT := lbphistlength cfg.lbptypeYT
    let init := (List.replicate nHist (List.replicate wXY 0),
                 List.replicate nHist (List.replicate wXT 0),
                 List.replicate nHist (List.replicate wYT 0))
    (mainLoop cfg norm frames wXY wXT wYT maxR (List.range' maxR nHist) init).map
      (fun ms => (padNaN maxR wXY ms.1, padNaN maxR wXT ms.2.1, padNaN maxR wYT ms.2.2))

/-- `numpy.hstack`: column-wise concatenation of two matrices with matching
row counts. -/
def hstack (a b : Mat) : Mat := List.zipWith (· ++ ·) a b

/-- Source lines 306-318: with `--all-planes` five matrices are persisted
(XY, XT, YT, XT_YT, XY_XT_YT), otherwise only XY_XT_YT. -/
def savedMatrices (all_planes : Bool) (mXY mXT mYT : Mat) : List (String × Mat) :=
  if all_planes then
    [("XY", mXY), ("XT", mXT), ("YT", mYT),
     ("XT_YT", hstack mXT mYT),
     ("XY_XT_YT", hstack (hstack mXY mXT) mYT)]
  else
    [("XY_XT_YT", hstack (hstack mXY mXT) mYT)]

/-- Source lines 136-141: the normalization target size handed to the face
normalizer (`None` when `--nonorm` is set; a square when one value is given;
the given list otherwise). -/
def computeNormfacesize (nonorm : Bool) (normfacesize : List ℕ) : Option (List ℕ) :=
  if nonorm then none
  else if normfacesize.length = 1 then
    some [normfacesize.getD 0 0, normfacesize.getD 0 0]
  else some normfacesize

end LbpTop

namespace LbpTop

/-! ### Basic lemmas: histogram lengths, `mapOpt`, list utilities -/

lemma length_incAt (l : List ℕ) (i : ℕ) : (incAt l i).length = l.length := by
  simp [incAt]

lemma length_foldl_incAt (bucket : ℕ → ℕ) :
    ∀ (codes : List ℕ) (h : List ℕ),
      (codes.foldl (fun h c => incAt h (bucket c)) h).length = h.length := by
  intro codes
  induction codes with
  | nil => intro h; rfl
  | cons c cs ih =>
    intro h
    simpa [length_incAt] using ih (incAt h (bucket c))

lemma buildHistogram_length (t : LBPType) (codes : List ℕ) :
    (buildHistogram t codes).length = lbphistlength t := by
  simpa using length_foldl_incAt (lbpBucket t) codes (List.replicate (lbphistlength t) 0)

lemma mapOpt_length {α β : Type} (f : α → Option β) :
    ∀ {l : List α} {out : List β}, mapOpt f l = some out → out.length = l.length := by
  intro l
  induction l with
  | nil =>
    intro out h
    simp only [mapOpt, Option.some.injEq] at h
    simp [← h]
  | cons a l ih =>
    intro out h
    cases hfa : f a with
    | none => simp [mapOpt, hfa] at h
    | some b =>
      simp only [mapOpt, hfa] at h
      cases hml : mapOpt f l with
      | none => rw [hml] at h; simp at h
      | some bs =>
        rw [hml] at h
        simp only [Option.map_some', Option.some.injEq] at h
        subst h
        simp [ih hml]

lemma mapOpt_getElem? {α β : Type} (f : α → Option β) :
    ∀ {l : List α} {out : List β}, mapOpt f l = some out →
      ∀ (k : ℕ) (x : α), l[k]? = some x → ∃ y, f x = some y ∧ out[k]? = some y := by
  intro l
  induction l with
  | nil => intro out _ k x hk; simp at hk
  | cons a l ih =>
    intro out h k x hk
    cases hfa : f a with
    | none => simp [mapOpt, hfa] at h
    | some b =>
      simp only [mapOpt, hfa] at h
      cases hml : mapOpt f l with
      | none => rw [hml] at h; simp at h
      | some bs =>
        rw [hml] at h
        simp only [Option.map_some', Option.some.injEq] at h
        subst h
        cases k with
        | zero =>
          simp only [List.getElem?_cons_zero, Option.some.injEq] at hk
          subst hk
          exact ⟨b, hfa, by simp⟩
        | succ k =>
          simp only [List.getElem?_cons_succ] at hk
          obtain ⟨y, hy1, hy2⟩ := ih hml k x hk
          exact ⟨y, hy1, by simpa using hy2⟩

lemma mapOpt_map {α β γ : Type} (f : β → Option γ) (g : α → β) :
    ∀ (l : List α), mapOpt f (l.map g) = mapOpt (fun x => f (g x)) l := by
  intro l
  induction l with
  | nil => rfl
  | cons a l ih => cases hfa : f (g a) with
    | none => simp [mapOpt, hfa]
    | some b => simp [mapOpt, hfa, ih]

lemma getElem?_zipWith {α β γ : Type} (f : α → β → γ) :
    ∀ (a : List α) (b : List β) (k : ℕ),
      (List.zipWith f a b)[k]? =
        (a[k]?).bind (fun x => (b[k]?).map (fun y => f x y)) := by
  intro a
  induction a with
  | nil => intro b k; simp
  | cons x xs ih =>
    intro b k
    cases b with
    | nil => simp
    | cons y ys =>
      cases k with
      | zero => simp
      | succ k => simpa using ih ys k

lemma mem_zipWith {α β γ : Type} (f : α → β → γ) :
    ∀ (a : List α) (b : List β) (c : γ), c ∈ List.zipWith f a b →
      ∃ x, x ∈ a ∧ ∃ y, y ∈ b ∧ c = f x y := by
  intro a
  induction a with
  | nil => intro b c hc; simp at hc
  | cons x xs ih =>
    intro b c hc
    cases b with
    | nil => simp at hc
    | cons y ys =>
      rcases List.mem_cons.mp hc with h | h
      · exact ⟨x, List.mem_cons_self x xs, y, List.mem_cons_self y ys, h⟩
      · obtain ⟨x0, hx0, y0, hy0, he⟩ := ih ys c h
        exact ⟨x0, List.mem_cons_of_mem x hx0, y0, List.mem_cons_of_mem y hy0, he⟩

lemma foldl_max_init : ∀ (l : List ℕ) (a : ℕ), a ≤ l.foldl max a := by
  intro l
  induction l with
  | nil => intro a; simp
  | cons x xs ih => intro a; exact le_trans (le_max_left a x) (ih (max a x))

lemma le_foldl_max : ∀ (l : List ℕ) (a x : ℕ), x ∈ l → x ≤ l.foldl max a := by
  intro l
  induction l with
  | nil => intro a x hx; simp at hx
  | cons y ys ih =>
    intro a x hx
    rcases List.mem_cons.mp hx with h | h
    · subst h; exact le_trans (le_max_right a x) (foldl_max_init ys (max a x))
    · exact ih (max a y) x h

lemma mem_le_maxRadius {rT : List ℕ} {r : ℕ} (h : r ∈ rT) : r ≤ maxRadius rT :=
  le_foldl_max rT 0 r h

end LbpTop

namespace LbpTop

/-! ### Lemmas about `rangeValues`, Python indexing, and volume slicing -/

lemma pythonGet_natCast {α : Type} (l : List α) (k : ℕ) :
    pythonGet l (k : ℤ) = l[k]? := by
  simp [pythonGet]

lemma mapOpt_pythonGet_range' {α : Type} (l : List α) :
    ∀ (n s : ℕ), s + n ≤ l.length →
      mapOpt (fun j : ℕ => l[j]?) (List.range' s n) = some ((l.drop s).take n) := by
  intro n
  induction n with
  | zero => intro s _; simp [mapOpt]
  | succ n ih =>
    intro s h
    have hs : s < l.length := by omega
    rw [List.range'_succ]
    simp only [mapOpt, List.getElem?_eq_getElem hs]
    rw [ih (s + 1) (by omega)]
    simp only [Option.map_some', Option.some.injEq]
    rw [List.drop_eq_getElem_cons hs, List.take_succ_cons]

lemma rangeValues_length (i mlr : ℕ) : (rangeValues i mlr).length = 2 * mlr + 1 := by
  unfold rangeValues
  rw [List.length_map, List.length_range]

lemma rangeValues_center (i mlr : ℕ) : (rangeValues i mlr)[mlr]? = some (i : ℤ) := by
  have h : mlr < 2 * mlr + 1 := by omega
  unfold rangeValues
  rw [List.getElem?_map, List.getElem?_range h]
  simp only [Option.map_some', Option.some.injEq]
  omega

lemma mem_rangeValues {i mlr : ℕ} {j : ℤ} (h : j ∈ rangeValues i mlr) :
    (i : ℤ) - (mlr : ℤ) ≤ j ∧ j ≤ (i : ℤ) + (mlr : ℤ) := by
  unfold rangeValues at h
  rw [List.mem_map] at h
  obtain ⟨k, hk, he⟩ := h
  rw [List.mem_range] at hk
  subst he
  refine ⟨?_, ?_⟩ <;> omega

lemma rangeValues_eq_cast (i mlr : ℕ) (h : mlr ≤ i) :
    rangeValues i mlr =
      (List.range' (i - mlr) (2 * mlr + 1)).map (fun k : ℕ => (k : ℤ)) := by
  unfold rangeValues
  rw [List.range'_eq_map_range, List.map_map]
  apply List.map_congr_left
  intro k _
  simp only [Function.comp_apply]
  omega

lemma mapOpt_pythonGet_rangeValues {α : Type} (l : List α) (i mlr : ℕ)
    (h1 : mlr ≤ i) (h2 : i + mlr < l.length) :
    mapOpt (pythonGet l) (rangeValues i mlr)
      = some ((l.drop (i - mlr)).take (2 * mlr + 1)) := by
  rw [rangeValues_eq_cast i mlr h1, mapOpt_map]
  have he : (fun k : ℕ => pythonGet l (k : ℤ)) = fun k : ℕ => l[k]? :=
    funext (pythonGet_natCast l)
  rw [he]
  exact mapOpt_pythonGet_range' l (2 * mlr + 1) (i - mlr) (by omega)

end LbpTop

namespace LbpTop

/-! ### Invariants of the sliding-window loop and of `processVideo` -/

lemma perFrameChecked_some_elim {cfg : Config} {norm : ℤ → Frame → Option Frame}
    {frames : List Frame} {wXY wXT wYT i : ℕ} {hrow : List ℕ × List ℕ × List ℕ}
    (h : perFrameChecked cfg norm frames wXY wXT wYT i = some hrow) :
    perFrameHists cfg norm frames i = some hrow ∧
    hrow.1.length = wXY ∧ hrow.2.1.length = wXT ∧ hrow.2.2.length = wYT := by
  unfold perFrameChecked at h
  cases hph : perFrameHists cfg norm frames i with
  | none => rw [hph] at h; exact absurd h (by simp)
  | some g =>
    rw [hph] at h
    dsimp only at h
    by_cases hw : g.1.length = wXY ∧ g.2.1.length = wXT ∧ g.2.2.length = wYT
    · rw [if_pos hw] at h
      cases h
      exact ⟨rfl, hw.1, hw.2.1, hw.2.2⟩
    · rw [if_neg hw] at h
      exact absurd h (by simp)

lemma mainLoop_lengths {cfg : Config} {norm : ℤ → Frame → Option Frame}
    {frames : List Frame} {wXY wXT wYT maxR : ℕ} :
    ∀ (is : List ℕ) (ms out : List (List ℕ) × List (List ℕ) × List (List ℕ)),
      mainLoop cfg norm frames wXY wXT wYT maxR is ms = some out →
      out.1.length = ms.1.length ∧ out.2.1.length = ms.2.1.length ∧
      out.2.2.length = ms.2.2.length := by
  intro is
  induction is with
  | nil =>
    intro ms out h
    simp only [mainLoop, Option.some.injEq] at h
    simp [← h]
  | cons i rest ih =>
    intro ms out h
    cases hc : perFrameChecked cfg norm frames wXY wXT wYT i with
    | none => simp [mainLoop, hc] at h
    | some hrow =>
      simp only [mainLoop, hc] at h
      have := ih _ _ h
      simpa [List.length_set] using this

lemma mainLoop_untouched {cfg : Config} {norm : ℤ → Frame → Option Frame}
    {frames : List Frame} {wXY wXT wYT maxR : ℕ} :
    ∀ (is : List ℕ) (ms out : List (List ℕ) × List (List ℕ) × List (List ℕ))
      (k : ℕ), (∀ i ∈ is, i - maxR ≠ k) →
      mainLoop cfg norm frames wXY wXT wYT maxR is ms = some out →
      out.1[k]? = ms.1[k]? ∧ out.2.1[k]? = ms.2.1[k]? ∧ out.2.2[k]? = ms.2.2[k]? := by
  intro is
  induction is with
  | nil =>
    intro ms out k _ h
    simp only [mainLoop, Option.some.injEq] at h
    simp [← h]
  | cons i rest ih =>
    intro ms out k hne h
    cases hc : perFrameChecked cfg norm frames wXY wXT wYT i with
    | none => simp [mainLoop, hc] at h
    | some hrow =>
      simp only [mainLoop, hc] at h
      have hrest := ih _ _ k (fun j hj => hne j (List.mem_cons_of_mem i hj)) h
      have hik : i - maxR ≠ k := hne i (List.mem_cons_self i rest)
      rw [hrest.1, hrest.2.1, hrest.2.2]
      exact ⟨List.getElem?_set_ne hik, List.getElem?_set_ne hik,
             List.getElem?_set_ne hik⟩

lemma mainLoop_range'_rows {cfg : Config} {norm : ℤ → Frame → Option Frame}
    {frames : List Frame} {wXY wXT wYT maxR : ℕ} :
    ∀ (n s : ℕ) (ms out : List (List ℕ) × List (List ℕ) × List (List ℕ)),
      maxR ≤ s →
      s + n ≤ maxR + ms.1.length →
      ms.2.1.length = ms.1.length → ms.2.2.length = ms.1.length →
      mainLoop cfg norm frames wXY wXT wYT maxR (List.range' s n) ms = some out →
      ∀ i : ℕ, s ≤ i → i < s + n →
        ∃ hrow, perFrameChecked cfg norm frames wXY wXT wYT i = some hrow ∧
          out.1[i - maxR]? = some hrow.1 ∧
          out.2.1[i - maxR]? = some hrow.2.1 ∧
          out.2.2[i - maxR]? = some hrow.2.2 := by
  intro n
  induction n with
  | zero => intro s ms out _ _ _ _ _ i h1 h2; omega
  | succ n ih =>
    intro s ms out hs hb h21 h22 h i hi1 hi2
    rw [List.range'_succ] at h
    cases hc : perFrameChecked cfg norm frames wXY wXT wYT s with
    | none => simp [mainLoop, hc] at h
    | some hrow0 =>
      simp only [mainLoop, hc] at h
      rcases Nat.eq_or_lt_of_le hi1 with he | hlt
      · subst he
        refine ⟨hrow0, hc, ?_⟩
        have hbound : s - maxR < ms.1.length := by omega
        have hne : ∀ j ∈ List.range' (s + 1) n, j - maxR ≠ s - maxR := by
          intro j hj
          rw [List.mem_range'_1] at hj
          omega
        have hunt := mainLoop_untouched (List.range' (s + 1) n) _ out (s - maxR) hne h
        rw [hunt.1, hunt.2.1, hunt.2.2]
        refine ⟨List.getElem?_set_self hbound, List.getElem?_set_self ?_,
                List.getElem?_set_self ?_⟩ <;> omega
      · exact ih (s + 1) _ out (by omega)
          (by simp only [List.length_set]; omega)
          (by simp only [List.length_set]; omega)
          (by simp only [List.length_set]; omega)
          h i hlt (by omega)

end LbpTop

namespace LbpTop

/-! ### Structure of the padded output matrices -/

lemma padNaN_length (maxrT w : ℕ) (body : List (List ℕ)) :
    (padNaN maxrT w body).length = maxrT + body.length + maxrT := by
  simp only [padNaN, List.length_append, List.length_replicate, List.length_map]

lemma padNaN_getElem?_lo (maxrT w : ℕ) (body : List (List ℕ)) (k : ℕ)
    (hk : k < maxrT) :
    (padNaN maxrT w body)[k]? = some (List.replicate w none) := by
  unfold padNaN
  rw [List.getElem?_append, if_pos (by simp; omega)]
  rw [List.getElem?_append, if_pos (by simp; omega)]
  simp [List.getElem?_replicate, hk]

lemma padNaN_getElem?_mid (maxrT w : ℕ) (body : List (List ℕ)) (k : ℕ)
    (hk : k < body.length) :
    (padNaN maxrT w body)[maxrT + k]? = (body[k]?).map (fun row => row.map some) := by
  unfold padNaN
  rw [List.getElem?_append, if_pos (by simp; omega)]
  rw [List.getElem?_append_right (by simp)]
  simp [List.getElem?_map]

lemma padNaN_getElem?_hi (maxrT w : ℕ) (body : List (List ℕ)) (k : ℕ)
    (hk1 : maxrT + body.length ≤ k) (hk2 : k < maxrT + body.length + maxrT) :
    (padNaN maxrT w body)[k]? = some (List.replicate w none) := by
  unfold padNaN
  rw [List.getElem?_append_right (by simp; omega)]
  simp only [List.length_append, List.length_replicate, List.length_map,
    List.getElem?_replicate]
  rw [if_pos (by omega)]

lemma processVideo_some_elim {cfg : Config} {norm : ℤ → Frame → Option Frame}
    {frames : List Frame} {M : Mat × Mat × Mat}
    (h : processVideo cfg norm frames = some M) :
    2 * maxRadius cfg.rT ≤ frames.length ∧
    ∃ b : List (List ℕ) × List (List ℕ) × List (List ℕ),
      mainLoop cfg norm frames (lbphistlength cfg.lbptypeXY)
        (lbphistlength cfg.lbptypeXT) (lbphistlength cfg.lbptypeYT)
        (maxRadius cfg.rT)
        (List.range' (maxRadius cfg.rT) (frames.length - 2 * maxRadius cfg.rT))
        (List.replicate (frames.length - 2 * maxRadius cfg.rT)
            (List.replicate (lbphistlength cfg.lbptypeXY) 0),
         List.replicate (frames.length - 2 * maxRadius cfg.rT)
            (List.replicate (lbphistlength cfg.lbptypeXT) 0),
         List.replicate (frames.length - 2 * maxRadius cfg.rT)
            (List.replicate (lbphistlength cfg.lbptypeYT) 0)) = some b ∧
      M = (padNaN (maxRadius cfg.rT) (lbphistlength cfg.lbptypeXY) b.1,
           padNaN (maxRadius cfg.rT) (lbphistlength cfg.lbptypeXT) b.2.1,
           padNaN (maxRadius cfg.rT) (lbphistlength cfg.lbptypeYT) b.2.2) := by
  unfold processVideo at h
  dsimp only at h
  split at h
  · exact absurd h (by simp)
  · rw [Option.map_eq_some'] at h
    obtain ⟨b, hb, hMb⟩ := h
    exact ⟨by omega, b, hb, hMb.symm⟩

lemma processVideo_interior {cfg : Config} {norm : ℤ → Frame → Option Frame}
    {frames : List Frame} {M : Mat × Mat × Mat}
    (h : processVideo cfg norm frames = some M) (k : ℕ)
    (hk1 : maxRadius cfg.rT ≤ k) (hk2 : k + maxRadius cfg.rT < frames.length) :
    ∃ hrow, perFrameHists cfg norm frames k = some hrow ∧
      hrow.1.length = lbphistlength cfg.lbptypeXY ∧
      hrow.2.1.length = lbphistlength cfg.lbptypeXT ∧
      hrow.2.2.length = lbphistlength cfg.lbptypeYT ∧
      M.1[k]? = some (hrow.1.map some) ∧
      M.2.1[k]? = some (hrow.2.1.map some) ∧
      M.2.2[k]? = some (hrow.2.2.map some) := by
  obtain ⟨hle, b, hb, hM⟩ := processVideo_some_elim h
  have hrows := mainLoop_range'_rows (frames.length - 2 * maxRadius cfg.rT)
      (maxRadius cfg.rT) _ b (le_refl _)
      (by simp only [List.length_replicate]; omega)
      (by simp only [List.length_replicate])
      (by simp only [List.length_replicate]) hb k hk1 (by omega)
  obtain ⟨hrow, hchk, h1, h2, h3⟩ := hrows
  obtain ⟨hph, hw1, hw2, hw3⟩ := perFrameChecked_some_elim hchk
  have hblen := mainLoop_lengths _ _ _ hb
  simp only [List.length_replicate] at hblen
  refine ⟨hrow, hph, hw1, hw2, hw3, ?_, ?_, ?_⟩
  · rw [hM]
    have hmid := padNaN_getElem?_mid (maxRadius cfg.rT)
      (lbphistlength cfg.lbptypeXY) b.1 (k - maxRadius cfg.rT) (by omega)
    rw [show maxRadius cfg.rT + (k - maxRadius cfg.rT) = k by omega] at hmid
    rw [hmid, h1]
    rfl
  · rw [hM]
    have hmid := padNaN_getElem?_mid (maxRadius cfg.rT)
      (lbphistlength cfg.lbptypeXT) b.2.1 (k - maxRadius cfg.rT) (by omega)
    rw [show maxRadius cfg.rT + (k - maxRadius cfg.rT) = k by omega] at hmid
    rw [hmid, h2]
    rfl
  · rw [hM]
    have hmid := padNaN_getElem?_mid (maxRadius cfg.rT)
      (lbphistlength cfg.lbptypeYT) b.2.2 (k - maxRadius cfg.rT) (by omega)
    rw [show maxRadius cfg.rT + (k - maxRadius cfg.rT) = k by omega] at hmid
    rw [hmid, h3]
    rfl

lemma processVideo_boundary {cfg : Config} {norm : ℤ → Frame → Option Frame}
    {frames : List Frame} {M : Mat × Mat × Mat}
    (h : processVideo cfg norm frames = some M) (k : ℕ)
    (hk : k < maxRadius cfg.rT ∨
          (frames.length - maxRadius cfg.rT ≤ k ∧ k < frames.length)) :
    M.1[k]? = some (List.replicate (lbphistlength cfg.lbptypeXY) none) ∧
    M.2.1[k]? = some (List.replicate (lbphistlength cfg.lbptypeXT) none) ∧
    M.2.2[k]? = some (List.replicate (lbphistlength cfg.lbptypeYT) none) := by
  obtain ⟨hle, b, hb, hM⟩ := processVideo_some_elim h
  have hblen := mainLoop_lengths _ _ _ hb
  simp only [List.length_replicate] at hblen
  rw [hM]
  rcases hk with hk | ⟨hk1, hk2⟩
  · exact ⟨padNaN_getElem?_lo _ _ _ k hk, padNaN_getElem?_lo _ _ _ k hk,
           padNaN_getElem?_lo _ _ _ k hk⟩
  · refine ⟨padNaN_getElem?_hi _ _ _ k (by omega) (by omega),
           padNaN_getElem?_hi _ _ _ k (by omega) (by omega),
           padNaN_getElem?_hi _ _ _ k (by omega) (by omega)⟩

end LbpTop

namespace LbpTop

/-! ### The per-frame radius loop: XY from the centre frame, XT/YT
concatenated in iteration order -/

/-- The XY histogram as determined by the centre frame of any local volume:
frame `i` after normalization, processed with the XY-plane parameters only.
No temporal radius occurs in this expression. -/
def xyPlaneHist (cfg : Config) (norm : ℤ → Frame → Option Frame)
    (frames : List Frame) (i : ℕ) : Option (List ℕ) :=
  ((frames[i]?).bind (norm (i : ℤ))).map
    (fun f => buildHistogram cfg.lbptypeXY (lbpCodes f cfg.rY cfg.rX cfg.elbptypeXY))

lemma perRadius_xy_center {cfg : Config} {norm : ℤ → Frame → Option Frame}
    {frames : List Frame} {i r : ℕ} {h : List ℕ × List ℕ × List ℕ}
    (hp : perRadius cfg norm frames i r = some h) :
    xyPlaneHist cfg norm frames i = some h.1 := by
  unfold perRadius at hp
  rw [Option.map_eq_some'] at hp
  obtain ⟨vol, hvol, hh⟩ := hp
  unfold getNormFacesFromRange at hvol
  have hlen : vol.length = 2 * maxLocalRadius cfg r + 1 := by
    rw [mapOpt_length _ hvol, rangeValues_length]
  obtain ⟨y, hy1, hy2⟩ := mapOpt_getElem? _ hvol (maxLocalRadius cfg r) ((i : ℕ) : ℤ)
      (rangeValues_center i (maxLocalRadius cfg r))
  rw [pythonGet_natCast] at hy1
  have hcenter : extractXY vol = y := by
    unfold extractXY
    rw [hlen]
    rw [show (2 * maxLocalRadius cfg r + 1) / 2 = maxLocalRadius cfg r by omega]
    rw [List.getD_eq_getElem?_getD, hy2]
    rfl
  rw [← hh]
  unfold xyPlaneHist lbptophist
  rw [hy1]
  simp only [Option.map_some', Option.some.injEq]
  rw [hcenter]

lemma concatRadii_spec {cfg : Config} {norm : ℤ → Frame → Option Frame}
    {frames : List Frame} {i : ℕ} :
    ∀ (rs : List ℕ) (acc out : List ℕ × List ℕ × List ℕ),
      concatRadii cfg norm frames i rs acc = some out →
      (∀ r ∈ rs, ∃ hr, perRadius cfg norm frames i r = some hr) ∧
      out.1 = acc.1 ∧
      out.2.1 = acc.2.1 ++
        (rs.map (fun r =>
          ((perRadius cfg norm frames i r).getD ([], [], [])).2.1)).flatten ∧
      out.2.2 = acc.2.2 ++
        (rs.map (fun r =>
          ((perRadius cfg norm frames i r).getD ([], [], [])).2.2)).flatten := by
  intro rs
  induction rs with
  | nil =>
    intro acc out h
    simp only [concatRadii, Option.some.injEq] at h
    subst h
    simp
  | cons r rest ih =>
    intro acc out h
    cases hr : perRadius cfg norm frames i r with
    | none => simp [concatRadii, hr] at h
    | some hrr =>
      simp only [concatRadii, hr] at h
      obtain ⟨hmem, h1, h2, h3⟩ := ih _ _ h
      refine ⟨?_, by simpa using h1, ?_, ?_⟩
      · intro r0 hr0
        rcases List.mem_cons.mp hr0 with he | he
        · subst he; exact ⟨hrr, hr⟩
        · exact hmem r0 he
      · rw [h2]; simp [hr, List.append_assoc]
      · rw [h3]; simp [hr, List.append_assoc]

lemma perFrameHists_elim {cfg : Config} {norm : ℤ → Frame → Option Frame}
    {frames : List Frame} {i : ℕ} {h : List ℕ × List ℕ × List ℕ}
    (hp : perFrameHists cfg norm frames i = some h) :
    ∃ r0 rest, cfg.rT = r0 :: rest ∧
      ∃ h0, perRadius cfg norm frames i r0 = some h0 ∧ h.1 = h0.1 ∧
      h.2.1 = (cfg.rT.map (fun r =>
          ((perRadius cfg norm frames i r).getD ([], [], [])).2.1)).flatten ∧
      h.2.2 = (cfg.rT.map (fun r =>
          ((perRadius cfg norm frames i r).getD ([], [], [])).2.2)).flatten ∧
      (∀ r ∈ cfg.rT, ∃ hr, perRadius cfg norm frames i r = some hr) := by
  unfold perFrameHists at hp
  cases hrt : cfg.rT with
  | nil => rw [hrt] at hp; exact absurd hp (by simp)
  | cons r0 rest =>
    rw [hrt] at hp
    dsimp only at hp
    cases hr0 : perRadius cfg norm frames i r0 with
    | none => rw [hr0] at hp; exact absurd hp (by simp)
    | some h0 =>
      rw [hr0] at hp
      dsimp only at hp
      obtain ⟨hmem, h1, h2, h3⟩ := concatRadii_spec rest h0 h hp
      refine ⟨r0, rest, rfl, h0, hr0, h1, ?_, ?_, ?_⟩
      · rw [h2]; simp [hr0]
      · rw [h3]; simp [hr0]
      · intro r hr
        rcases List.mem_cons.mp hr with he | he
        · subst he; exact ⟨h0, hr0⟩
        · exact hmem r he

lemma perFrameHists_xy {cfg : Config} {norm : ℤ → Frame → Option Frame}
    {frames : List Frame} {i : ℕ} {h : List ℕ × List ℕ × List ℕ}
    (hp : perFrameHists cfg norm frames i = some h) :
    xyPlaneHist cfg norm frames i = some h.1 := by
  obtain ⟨r0, rest, hrt, h0, hr0, h1, _, _, _⟩ := perFrameHists_elim hp
  rw [h1]
  exact perRadius_xy_center hr0

/-- Rows of NaN contain only the sentinel. -/
lemma replicate_all_none {n : ℕ} : ∀ c ∈ List.replicate n (none : Option ℕ), c = none :=
  fun _ hc => List.eq_of_mem_replicate hc

lemma hstack_boundary_none {m1 m2 : Mat} {k : ℕ} {r1 r2 : List (Option ℕ)}
    (h1 : m1[k]? = some r1) (h2 : m2[k]? = some r2)
    (ha : ∀ c ∈ r1, c = none) (hb : ∀ c ∈ r2, c = none) :
    (hstack m1 m2)[k]? = some (r1 ++ r2) ∧ ∀ c ∈ r1 ++ r2, c = none := by
  constructor
  · rw [hstack, getElem?_zipWith, h1, h2]; rfl
  · intro c hc
    rcases List.mem_append.mp hc with h | h
    · exact ha c h
    · exact hb c h

end LbpTop

namespace LbpTop

/-! ### Concrete inputs used by counterexamples and witnesses -/

/-- A 3x3 frame of constant intensity `v`. -/
def cFrame (v : ℕ) : Frame := List.replicate 3 (List.replicate 3 v)

/-- Identity normalizer: every frame has a usable face location and is passed
through unchanged (the Face Normalizer is an external collaborator). -/
def normId : ℤ → Frame → Option Frame := fun _ f => some f

/-- The command-line defaults except for the temporal radius set: 8
neighbours, spatial radii 1, non-circular, uniform LBP, regular extended
mode. -/
def cfgDefault (rT : List ℕ) : Config :=
  ⟨8, 8, 8, 1, 1, rT, false, false, false, .uniform, .uniform, .uniform,
   .regular, .regular, .regular⟩

/-- Five 3x3 frames whose intensity varies non-monotonically over time. -/
def framesW : List Frame := [cFrame 0, cFrame 0, cFrame 9, cFrame 5, cFrame 9]

/-- Five pairwise distinct constant frames. -/
def framesD : List Frame := [cFrame 1, cFrame 2, cFrame 3, cFrame 4, cFrame 5]

/-- A one-frame video. -/
def frames1 : List Frame := [cFrame 7]

/-- A two-frame video. -/
def frames2 : List Frame := [cFrame 1, cFrame 2]

/-- A configuration whose spatial radius X = 2 exceeds the maximum temporal
radius `max(rT) = 1`. -/
def cfgSpat : Config :=
  ⟨8, 8, 8, 2, 1, [1], false, false, false, .uniform, .uniform, .uniform,
   .regular, .regular, .regular⟩

/-! ### Claim theorems -/

/-- **C8**: for every plane, the per-radius histogram length is determined
solely by the plane's LBP variant through the table regular=256, riu2=10,
uniform=59, independently of the configured radii and neighbour counts. -/
theorem c8_hist_length_by_variant :
    (lbphistlength .regular = 256 ∧ lbphistlength .riu2 = 10 ∧
     lbphistlength .uniform = 59) ∧
    ∀ (volume : List Frame) (nXY nXT nYT rX rY r : ℕ) (cXY cXT cYT : Bool)
      (tXY tXT tYT : LBPType) (eXY eXT eYT : ELBPType),
      (lbptophist volume nXY nXT nYT rX rY r cXY cXT cYT
          tXY tXT tYT eXY eXT eYT).1.length = lbphistlength tXY ∧
      (lbptophist volume nXY nXT nYT rX rY r cXY cXT cYT
          tXY tXT tYT eXY eXT eYT).2.1.length = lbphistlength tXT ∧
      (lbptophist volume nXY nXT nYT rX rY r cXY cXT cYT
          tXY tXT tYT eXY eXT eYT).2.2.length = lbphistlength tYT := by
  refine ⟨⟨rfl, rfl, rfl⟩, ?_⟩
  intro volume nXY nXT nYT rX rY r cXY cXT cYT tXY tXT tYT eXY eXT eYT
  unfold lbptophist
  exact ⟨buildHistogram_length _ _, buildHistogram_length _ _,
         buildHistogram_length _ _⟩

/-- **C10**: the normalization target size handed to the face normalizer is
`None` whenever the no-normalization flag is set (regardless of the size
argument), the square `[v, v]` when exactly one size value `v` is supplied,
and the supplied list unchanged when two or more values are supplied. -/
theorem c10_normfacesize (sizes : List ℕ) (v : ℕ) :
    computeNormfacesize true sizes = none ∧
    computeNormfacesize false [v] = some [v, v] ∧
    (2 ≤ sizes.length → computeNormfacesize false sizes = some sizes) := by
  refine ⟨rfl, rfl, ?_⟩
  intro h2
  unfold computeNormfacesize
  rw [if_neg (by simp), if_neg (by omega)]

/-- Witness for C10 at the concrete sizes `[3, 4]` and `7`. -/
theorem c10_normfacesize_witness :
    computeNormfacesize true [3, 4] = none ∧
    computeNormfacesize false [7] = some [7, 7] ∧
    computeNormfacesize false [3, 4] = some [3, 4] :=
  ⟨(c10_normfacesize [3, 4] 7).1, (c10_normfacesize [3, 4] 7).2.1,
   (c10_normfacesize [3, 4] 7).2.2 (by decide)⟩

/-- Every row of a matrix has exactly `w` columns. -/
def hasWidth (m : Mat) (w : ℕ) : Prop := ∀ row ∈ m, row.length = w

/-- **C7**: with the all-planes flag exactly five matrices are persisted —
XY, XT, YT and the column concatenations XT∪YT and XY∪XT∪YT — and column
widths add up (`width(XT∪YT) = width(XT) + width(YT)` and
`width(XY∪XT∪YT) = width(XY) + width(XT) + width(YT)`); otherwise only
XY∪XT∪YT is persisted. -/
theorem c7_output_combinations (mXY mXT mYT : Mat) (a b c : ℕ)
    (hXY : hasWidth mXY a) (hXT : hasWidth mXT b) (hYT : hasWidth mYT c) :
    (savedMatrices true mXY mXT mYT).length = 5 ∧
    (savedMatrices true mXY mXT mYT).map Prod.fst
        = ["XY", "XT", "YT", "XT_YT", "XY_XT_YT"] ∧
    savedMatrices true mXY mXT mYT
        = [("XY", mXY), ("XT", mXT), ("YT", mYT), ("XT_YT", hstack mXT mYT),
           ("XY_XT_YT", hstack (hstack mXY mXT) mYT)] ∧
    hasWidth (hstack mXT mYT) (b + c) ∧
    hasWidth (hstack (hstack mXY mXT) mYT) (a + b + c) ∧
    savedMatrices false mXY mXT mYT
        = [("XY_XT_YT", hstack (hstack mXY mXT) mYT)] := by
  refine ⟨rfl, rfl, rfl, ?_, ?_, rfl⟩
  · intro row hrow
    obtain ⟨x, hx, y, hy, he⟩ := mem_zipWith _ _ _ _ hrow
    subst he
    rw [List.length_append, hXT x hx, hYT y hy]
  · intro row hrow
    obtain ⟨x, hx, y, hy, he⟩ := mem_zipWith _ _ _ _ hrow
    subst he
    obtain ⟨x1, hx1, y1, hy1, he1⟩ := mem_zipWith _ _ _ _ hx
    subst he1
    rw [List.length_append, List.length_append, hXY x1 hx1, hXT y1 hy1, hYT y hy]

/-- Witness for C7 on concrete one-row matrices of widths 1, 2 and 1. -/
theorem c7_output_combinations_witness :
    (savedMatrices true [[some 1]] [[some 2, some 3]] [[none]]).length = 5 ∧
    hasWidth (hstack [[some 2, some 3]] [[none]]) (2 + 1) ∧
    savedMatrices false [[some 1]] [[some 2, some 3]] [[none]]
        = [("XY_XT_YT", hstack (hstack [[some 1]] [[some 2, some 3]]) [[none]])] :=
  ⟨(c7_output_combinations [[some 1]] [[some 2, some 3]] [[none]] 1 2 1
      (by intro row hr; rw [List.mem_singleton] at hr; subst hr; rfl)
      (by intro row hr; rw [List.mem_singleton] at hr; subst hr; rfl)
      (by intro row hr; rw [List.mem_singleton] at hr; subst hr; rfl)).1,
   (c7_output_combinations [[some 1]] [[some 2, some 3]] [[none]] 1 2 1
      (by intro row hr; rw [List.mem_singleton] at hr; subst hr; rfl)
      (by intro row hr; rw [List.mem_singleton] at hr; subst hr; rfl)
      (by intro row hr; rw [List.mem_singleton] at hr; subst hr; rfl)).2.2.2.1,
   (c7_output_combinations [[some 1]] [[some 2, some 3]] [[none]] 1 2 1
      (by intro row hr; rw [List.mem_singleton] at hr; subst hr; rfl)
      (by intro row hr; rw [List.mem_singleton] at hr; subst hr; rfl)
      (by intro row hr; rw [List.mem_singleton] at hr; subst hr; rfl)).2.2.2.2.2⟩

/-- **C9**: the global boundary margin `maxRadius = max(rT)` ignores the
spatial radii.  When `max(rX, rY) ≤ max(rT)`, every index of every
local-volume range of an analysable frame lies in `[0, frameCount)`; but
with `rX = 2, rY = 1, rT = [1]` the first analysable frame index 1 yields
the range `[-1, 0, 1, 2, 3]`, whose negative entry Python indexing silently
resolves to the LAST frame of the video instead of failing. -/
theorem c9_margin_ignores_spatial_radii :
    (∀ (rX rY : ℕ) (rT : List ℕ) (nFrames i r : ℕ),
        max rX rY ≤ maxRadius rT → r ∈ rT →
        maxRadius rT ≤ i → i + maxRadius rT < nFrames →
        ∀ j ∈ rangeValues i (max (max rX rY) r),
          0 ≤ j ∧ j < (nFrames : ℤ)) ∧
    (cfgSpat.rX = 2 ∧ cfgSpat.rY = 1 ∧ cfgSpat.rT = [1] ∧
     maxRadius cfgSpat.rT = 1 ∧ maxLocalRadius cfgSpat 1 = 2 ∧
     rangeValues 1 (maxLocalRadius cfgSpat 1) = [-1, 0, 1, 2, 3] ∧
     framesD.length = 5 ∧ pythonGet framesD (-1) = some (cFrame 5) ∧
     framesD[4]? = some (cFrame 5)) := by
  constructor
  · intro rX rY rT nFrames i r hmax hr hi1 hi2 j hj
    have hb := mem_rangeValues hj
    have h1 : r ≤ maxRadius rT := mem_le_maxRadius hr
    have h2 : max (max rX rY) r ≤ maxRadius rT := max_le hmax h1
    omega
  · exact ⟨rfl, rfl, rfl, rfl, rfl, by decide, rfl, by decide, rfl⟩

/-- Witness for C9's universally quantified half at `rX = rY = 1`,
`rT = [2]`, a 6-frame video, `i = 2`, `r = 2`, `j = 0`. -/
theorem c9_margin_witness : (0 : ℤ) ≤ 0 ∧ (0 : ℤ) < ((6 : ℕ) : ℤ) :=
  c9_margin_ignores_spatial_radii.1 1 1 [2] 6 2 2 (by decide) (by decide)
    (by decide) (by decide) 0 (by decide)

end LbpTop

namespace LbpTop

/-- **C1** (code bug): with radius set `[1, 2]` the per-frame XT and YT
concatenations do have width `binCount * 2 = 118` exactly as the claim
states, but the XT/YT matrices are allocated with width
`lbphistlength[variant] = 59` only (source lines 246-248, no factor
`len(rT)`), so the numpy row assignment
`histVolumeXT[i - maxRadius, :] = histLocalVolumeXT` cannot broadcast a
118-wide row into a 59-wide one: the multiresolution run the script's own
docstring advertises aborts and nothing is stored. -/
theorem c1_multiradius_width_bug :
    (perFrameHists (cfgDefault [1, 2]) normId framesW 2).map
        (fun h => (h.1.length, h.2.1.length, h.2.2.length))
      = some (59, 2 * 59, 2 * 59) ∧
    lbphistlength (cfgDefault [1, 2]).lbptypeXT = 59 ∧
    lbphistlength (cfgDefault [1, 2]).lbptypeYT = 59 ∧
    processVideo (cfgDefault [1, 2]) normId framesW = none :=
  ⟨by decide, rfl, rfl, by decide⟩

/-- **C2** (counterexample to the claim as stated): a one-frame video with
radius set `[1]` has `nFrames = 1 < 2 = 2 * maxRadius`, so the allocation
`numpy.zeros(shape=(nFrames - 2*maxRadius, _))` is handed a negative
dimension and raises: the computation does not succeed, and no output
matrix with `frameCount` rows exists. -/
theorem c2_short_video_fails :
    frames1.length = 1 ∧ maxRadius (cfgDefault [1]).rT = 1 ∧
    processVideo (cfgDefault [1]) normId frames1 = none := by
  exact ⟨rfl, rfl, by decide⟩

/-- **C2** (amended): whenever the per-video computation succeeds — which
requires at least `2 * maxRadius` frames — every per-plane output matrix
and every persisted plane combination has exactly `frameCount` rows. -/
theorem c2_rows_eq_frame_count (cfg : Config) (norm : ℤ → Frame → Option Frame)
    (frames : List Frame) (M : Mat × Mat × Mat)
    (h : processVideo cfg norm frames = some M) :
    M.1.length = frames.length ∧ M.2.1.length = frames.length ∧
    M.2.2.length = frames.length ∧
    ∀ (ap : Bool) p, p ∈ savedMatrices ap M.1 M.2.1 M.2.2 →
      p.2.length = frames.length := by
  obtain ⟨hle, b, hb, hM⟩ := processVideo_some_elim h
  have hblen := mainLoop_lengths _ _ _ hb
  simp only [List.length_replicate] at hblen
  obtain ⟨mXY, mXT, mYT⟩ := M
  simp only [Prod.mk.injEq] at hM
  obtain ⟨e1, e2, e3⟩ := hM
  subst e1; subst e2; subst e3
  have l1 : (padNaN (maxRadius cfg.rT) (lbphistlength cfg.lbptypeXY) b.1).length
      = frames.length := by rw [padNaN_length]; omega
  have l2 : (padNaN (maxRadius cfg.rT) (lbphistlength cfg.lbptypeXT) b.2.1).length
      = frames.length := by rw [padNaN_length]; omega
  have l3 : (padNaN (maxRadius cfg.rT) (lbphistlength cfg.lbptypeYT) b.2.2).length
      = frames.length := by rw [padNaN_length]; omega
  refine ⟨l1, l2, l3, ?_⟩
  intro ap p hp
  cases ap with
  | true =>
    simp only [savedMatrices, if_true, List.mem_cons, List.mem_singleton,
      List.not_mem_nil, or_false] at hp
    rcases hp with rfl | rfl | rfl | rfl | rfl
    · exact l1
    · exact l2
    · exact l3
    · simp only [hstack, List.length_zipWith, l2, l3, min_self]
    · simp only [hstack, List.length_zipWith, l1, l2, l3, min_self]
  | false =>
    simp only [savedMatrices, Bool.false_eq_true, if_false, List.mem_singleton] at hp
    subst hp
    simp only [hstack, List.length_zipWith, l1, l2, l3, min_self]

/-- The output of a successful two-frame run with radius set `[1]`. -/
def outFrames2 : Mat × Mat × Mat :=
  (processVideo (cfgDefault [1]) normId frames2).getD ([], [], [])

/-- Witness for the amended C2 on a two-frame video. -/
theorem c2_rows_witness :
    outFrames2.1.length = frames2.length ∧
    outFrames2.2.1.length = frames2.length ∧
    outFrames2.2.2.length = frames2.length :=
  ⟨(c2_rows_eq_frame_count (cfgDefault [1]) normId frames2 outFrames2 (by decide)).1,
   (c2_rows_eq_frame_count (cfgDefault [1]) normId frames2 outFrames2 (by decide)).2.1,
   (c2_rows_eq_frame_count (cfgDefault [1]) normId frames2 outFrames2 (by decide)).2.2.1⟩

/-- The XT histogram the model computes at frame index 2 of `framesW` for
one temporal radius of the configuration with radius set `[2, 1]`. -/
def xtHistAt (r : ℕ) : List ℕ :=
  ((perRadius (cfgDefault [2, 1]) normId framesW 2 r).getD ([], [], [])).2.1

/-- **C4** (counterexample to the claim as stated): with the user-supplied
radius set `[2, 1]` the per-frame XT concatenation is
`hist(r=2) ++ hist(r=1)` — the supplied order — and this differs from the
ascending order `hist(r=1) ++ hist(r=2)` the claim requires. -/
theorem c4_supplied_order_not_ascending :
    (perFrameHists (cfgDefault [2, 1]) normId framesW 2).map (fun h => h.2.1)
        = some (xtHistAt 2 ++ xtHistAt 1) ∧
    xtHistAt 2 ++ xtHistAt 1 ≠ xtHistAt 1 ++ xtHistAt 2 :=
  ⟨by decide, by decide⟩

/-- **C4** (amended): the orchestrator processes the configured temporal
radii in the order the user supplied them (`for r in rT`), and the XT and YT
per-radius histograms are concatenated column-wise in that supplied
iteration order. -/
theorem c4_concat_in_supplied_order (cfg : Config)
    (norm : ℤ → Frame → Option Frame) (frames : List Frame) (i : ℕ)
    (h : List ℕ × List ℕ × List ℕ)
    (hp : perFrameHists cfg norm frames i = some h) :
    (∀ r ∈ cfg.rT, ∃ hr, perRadius cfg norm frames i r = some hr) ∧
    h.2.1 = (cfg.rT.map (fun r =>
        ((perRadius cfg norm frames i r).getD ([], [], [])).2.1)).flatten ∧
    h.2.2 = (cfg.rT.map (fun r =>
        ((perRadius cfg norm frames i r).getD ([], [], [])).2.2)).flatten := by
  obtain ⟨r0, rest, hrt, h0, hr0, _, h2, h3, hmem⟩ := perFrameHists_elim hp
  exact ⟨hmem, h2, h3⟩

/-- Witness for the amended C4 on the concrete `[2, 1]` run. -/
theorem c4_concat_witness :
    ((perFrameHists (cfgDefault [2, 1]) normId framesW 2).getD ([], [], [])).2.1
      = ((cfgDefault [2, 1]).rT.map (fun r =>
          ((perRadius (cfgDefault [2, 1]) normId framesW 2 r).getD
              ([], [], [])).2.1)).flatten :=
  (c4_concat_in_supplied_order (cfgDefault [2, 1]) normId framesW 2
    ((perFrameHists (cfgDefault [2, 1]) normId framesW 2).getD ([], [], []))
    (by decide)).2.1

/-- **C5** (counterexample to the claim as stated): with spatial radii
`(2, 1)` exceeding the temporal radius set `[1]`, at the first analysable
frame index `i = 1` and radius `r = 1` we get `maxLocalRadius = 2`, and the
local volume handed to the histogram builder wraps around: its first entry
is the LAST frame of the video.  It is not the contiguous length-5
sub-sequence centered on frame 1: the only length-5 contiguous slice of
this 5-frame video is the video itself (`drop s` for `s ≥ 1` leaves fewer
than 5 frames), and the volume differs from every `(framesD.drop s).take 5`. -/
theorem c5_wrapped_volume_not_contiguous :
    maxLocalRadius cfgSpat 1 = 2 ∧
    getNormFacesFromRange framesD (rangeValues 1 (maxLocalRadius cfgSpat 1)) normId
        = some [cFrame 5, cFrame 1, cFrame 2, cFrame 3, cFrame 4] ∧
    ((List.range 6).all (fun s =>
        decide ((framesD.drop s).take 5
          ≠ [cFrame 5, cFrame 1, cFrame 2, cFrame 3, cFrame 4]))) = true :=
  ⟨rfl, by decide, by decide⟩

/-- **C5** (amended): provided `maxLocalRadius = max(rX, rY, r)` satisfies
`mlr ≤ i` and `i + mlr < frameCount` — which the orchestrator's own bounds
guarantee exactly when `max(rX, rY) ≤ max(rT)` — the range handed to the
normalizer has length `2*mlr + 1`, is centered on `i`, selects under Python
indexing precisely the contiguous slice `frames[i - mlr : i + mlr + 1]`,
and the volume handed to the histogram builder is the external normalizer
mapped over exactly that range. -/
theorem c5_volume_is_centered_slice (cfg : Config)
    (norm : ℤ → Frame → Option Frame) (frames : List Frame) (i r : ℕ)
    (h1 : maxLocalRadius cfg r ≤ i)
    (h2 : i + maxLocalRadius cfg r < frames.length) :
    (rangeValues i (maxLocalRadius cfg r)).length
        = 2 * maxLocalRadius cfg r + 1 ∧
    (rangeValues i (maxLocalRadius cfg r))[maxLocalRadius cfg r]? = some (i : ℤ) ∧
    mapOpt (pythonGet frames) (rangeValues i (maxLocalRadius cfg r))
      = some ((frames.drop (i - maxLocalRadius cfg r)).take
          (2 * maxLocalRadius cfg r + 1)) ∧
    ((frames.drop (i - maxLocalRadius cfg r)).take
        (2 * maxLocalRadius cfg r + 1)).length = 2 * maxLocalRadius cfg r + 1 ∧
    perRadius cfg norm frames i r
      = (getNormFacesFromRange frames (rangeValues i (maxLocalRadius cfg r)) norm).map
          (fun normalizedVolume =>
            lbptophist normalizedVolume cfg.nXY cfg.nXT cfg.nYT cfg.rX cfg.rY r
              cfg.cXY cfg.cXT cfg.cYT cfg.lbptypeXY cfg.lbptypeXT cfg.lbptypeYT
              cfg.elbptypeXY cfg.elbptypeXT cfg.elbptypeYT) := by
  refine ⟨rangeValues_length _ _, rangeValues_center _ _,
    mapOpt_pythonGet_rangeValues frames i _ h1 h2, ?_, rfl⟩
  rw [List.length_take, List.length_drop]
  omega

/-- Witness for the amended C5 at `i = 2`, `r = 1` on the distinct-frame
video with the default configuration. -/
theorem c5_volume_witness :
    (rangeValues 2 (maxLocalRadius (cfgDefault [1]) 1)).length
        = 2 * maxLocalRadius (cfgDefault [1]) 1 + 1 ∧
    mapOpt (pythonGet framesD) (rangeValues 2 (maxLocalRadius (cfgDefault [1]) 1))
        = some ((framesD.drop (2 - maxLocalRadius (cfgDefault [1]) 1)).take
            (2 * maxLocalRadius (cfgDefault [1]) 1 + 1)) :=
  ⟨(c5_volume_is_centered_slice (cfgDefault [1]) normId framesD 2 1
      (by decide) (by decide)).1,
   (c5_volume_is_centered_slice (cfgDefault [1]) normId framesD 2 1
      (by decide) (by decide)).2.2.1⟩

end LbpTop

namespace LbpTop

/-- **C3**: whenever the per-video computation completes, the first
`maxRadius` rows and the last `maxRadius` rows of each of the three
per-plane matrices equal the NaN sentinel in every column, the interior
rows are exactly the computed per-frame histogram rows, and hence the
boundary rows of every persisted plane combination are entirely NaN as
well. -/
theorem c3_nan_boundaries (cfg : Config) (norm : ℤ → Frame → Option Frame)
    (frames : List Frame) (M : Mat × Mat × Mat)
    (h : processVideo cfg norm frames = some M) :
    (∀ k, (k < maxRadius cfg.rT ∨
           (frames.length - maxRadius cfg.rT ≤ k ∧ k < frames.length)) →
       M.1[k]? = some (List.replicate (lbphistlength cfg.lbptypeXY) none) ∧
       M.2.1[k]? = some (List.replicate (lbphistlength cfg.lbptypeXT) none) ∧
       M.2.2[k]? = some (List.replicate (lbphistlength cfg.lbptypeYT) none)) ∧
    (∀ k, maxRadius cfg.rT ≤ k → k + maxRadius cfg.rT < frames.length →
       ∃ hrow, perFrameHists cfg norm frames k = some hrow ∧
         M.1[k]? = some (hrow.1.map some) ∧
         M.2.1[k]? = some (hrow.2.1.map some) ∧
         M.2.2[k]? = some (hrow.2.2.map some)) ∧
    (∀ (ap : Bool) p, p ∈ savedMatrices ap M.1 M.2.1 M.2.2 →
       ∀ k, (k < maxRadius cfg.rT ∨
             (frames.length - maxRadius cfg.rT ≤ k ∧ k < frames.length)) →
         ∀ row, p.2[k]? = some row → ∀ c ∈ row, c = none) := by
  refine ⟨fun k hk => processVideo_boundary h k hk, ?_, ?_⟩
  · intro k hk1 hk2
    obtain ⟨hrow, hph, _, _, _, m1, m2, m3⟩ := processVideo_interior h k hk1 hk2
    exact ⟨hrow, hph, m1, m2, m3⟩
  · intro ap p hp k hk row hrowk
    obtain ⟨b1, b2, b3⟩ := processVideo_boundary h k hk
    have h12 := hstack_boundary_none b1 b2 replicate_all_none replicate_all_none
    have h23 := hstack_boundary_none b2 b3 replicate_all_none replicate_all_none
    have h123 := hstack_boundary_none h12.1 b3 h12.2 replicate_all_none
    cases ap with
    | true =>
      simp only [savedMatrices, if_true, List.mem_cons, List.mem_singleton,
        List.not_mem_nil, or_false] at hp
      rcases hp with rfl | rfl | rfl | rfl | rfl
      · dsimp only at hrowk
        rw [b1] at hrowk
        injection hrowk with he
        rw [← he]
        exact replicate_all_none
      · dsimp only at hrowk
        rw [b2] at hrowk
        injection hrowk with he
        rw [← he]
        exact replicate_all_none
      · dsimp only at hrowk
        rw [b3] at hrowk
        injection hrowk with he
        rw [← he]
        exact replicate_all_none
      · dsimp only at hrowk
        rw [h23.1] at hrowk
        injection hrowk with he
        rw [← he]
        exact h23.2
      · dsimp only at hrowk
        rw [h123.1] at hrowk
        injection hrowk with he
        rw [← he]
        exact h123.2
    | false =>
      simp only [savedMatrices, Bool.false_eq_true, if_false,
        List.mem_singleton] at hp
      subst hp
      dsimp only at hrowk
      rw [h123.1] at hrowk
      injection hrowk with he
      rw [← he]
      exact h123.2

/-- The output of a successful run of the varying five-frame video with
radius set `[1]`. -/
def outW1 : Mat × Mat × Mat :=
  (processVideo (cfgDefault [1]) normId framesW).getD ([], [], [])

/-- Witness for C3 on the concrete five-frame run: row 0 and row 4 of the XY
matrix are NaN rows, and interior row 2 is the computed histogram row. -/
theorem c3_nan_boundaries_witness :
    outW1.1[0]? = some (List.replicate 59 none) ∧
    outW1.1[4]? = some (List.replicate 59 none) ∧
    outW1.1[2]? = some (((perFrameHists (cfgDefault [1]) normId framesW 2).getD
        ([], [], [])).1.map some) := by
  have h := c3_nan_boundaries (cfgDefault [1]) normId framesW outW1 (by decide)
  refine ⟨(h.1 0 (by decide)).1, (h.1 4 (by decide)).1, ?_⟩
  obtain ⟨hrow, he, h1, _, _⟩ := h.2.1 2 (by decide) (by decide)
  rw [he]
  simp only [Option.getD_some]
  exact h1

/-- **C6**: the stored XY row of an interior frame is the XY histogram of
the first temporal radius processed only, and XY rows are invariant under a
change of the temporal radius set: two runs that differ only in `rT` agree
on the XY row at every index that is interior for both. -/
theorem c6_xy_first_radius_invariant (cfg : Config) (rtB : List ℕ)
    (norm : ℤ → Frame → Option Frame) (frames : List Frame)
    (A B : Mat × Mat × Mat)
    (hA : processVideo cfg norm frames = some A)
    (hB : processVideo { cfg with rT := rtB } norm frames = some B)
    (k : ℕ)
    (hA1 : maxRadius cfg.rT ≤ k) (hA2 : k + maxRadius cfg.rT < frames.length)
    (hB1 : maxRadius rtB ≤ k) (hB2 : k + maxRadius rtB < frames.length) :
    (∃ h0, perRadius cfg norm frames k (cfg.rT.headD 0) = some h0 ∧
        A.1[k]? = some (h0.1.map some)) ∧
    A.1[k]? = B.1[k]? := by
  obtain ⟨ra, hra, _, _, _, ha1, _, _⟩ := processVideo_interior hA k hA1 hA2
  obtain ⟨rb, hrb, _, _, _, hb1, _, _⟩ := processVideo_interior hB k hB1 hB2
  obtain ⟨r0, rest, hrt, h0, hr0, hfirstxy, _, _, _⟩ := perFrameHists_elim hra
  have hxyA : xyPlaneHist cfg norm frames k = some ra.1 := perFrameHists_xy hra
  have hxyB : xyPlaneHist { cfg with rT := rtB } norm frames k = some rb.1 :=
    perFrameHists_xy hrb
  have hsame : xyPlaneHist { cfg with rT := rtB } norm frames k
      = xyPlaneHist cfg norm frames k := rfl
  have hab : ra.1 = rb.1 := by
    rw [hsame, hxyA] at hxyB
    exact Option.some.inj hxyB
  constructor
  · refine ⟨h0, ?_, ?_⟩
    · rw [hrt]
      exact hr0
    · rw [ha1, hfirstxy]
  · rw [ha1, hb1, hab]

/-- The XY matrices of two runs of the distinct-frame video with radius sets
`[1]` and `[2]`. -/
def outD1 : Mat × Mat × Mat :=
  (processVideo (cfgDefault [1]) normId framesD).getD ([], [], [])

/-- See `outD1`; the second run uses radius set `[2]`. -/
def outD2 : Mat × Mat × Mat :=
  (processVideo { cfgDefault [1] with rT := [2] } normId framesD).getD
    ([], [], [])

/-- Witness for C6: the two runs agree on the XY row of the common interior
index 2. -/
theorem c6_xy_invariant_witness : outD1.1[2]? = outD2.1[2]? :=
  (c6_xy_first_radius_invariant (cfgDefault [1]) [2] normId framesD outD1 outD2
    (by decide) (by decide) 2 (by decide) (by decide) (by decide) (by decide)).2

end LbpTop
